import Mathlib

/-!
Verification of the CSV-ingestion / column-reconciliation / tile-aggregation
pipeline of `src/streamlit_app.py` (`process_csv_data`, lines 204-276, and the
module-level upload handler, lines 337-350).

Tables are shallowly embedded as a header (list of column names) together with
row-major cell lists.  A cell is `Option String`: `none` models a pandas
null (NaN/NaT), `some s` a string-valued cell.  Monetary rates are modelled
as exact rationals; pandas-library behaviour that the source relies on
(`str.strip`, `dropna`, `to_datetime(dayfirst=True, errors='coerce')`,
`to_numeric(errors='coerce')`, `groupby(sort=True).agg`) is modelled
faithfully at the value level and noted at each definition.
-/

namespace GdpDash

/-- A table cell: `none` is a pandas null (NaN), `some s` a string value. -/
abbrev Cell := Option String

/-- A pandas DataFrame, row-major: a header of column names and rows of cells. -/
structure Frame where
  header : List String
  rows : List (List Cell)
deriving DecidableEq, Repr

/-- Rectangularity: every row has exactly one cell per header column
(always true of a DataFrame read from a CSV). -/
def Rect (f : Frame) : Prop := ∀ r ∈ f.rows, r.length = f.header.length

instance (f : Frame) : Decidable (Rect f) := by
  unfold Rect; infer_instance

/-- Characters stripped by Python `str.strip()` (whitespace). -/
def isPySpace (c : Char) : Bool := c == ' ' || c == '\t' || c == '\n' || c == '\r'

/-- Strip leading and trailing whitespace from a character list. -/
def stripChars (l : List Char) : List Char :=
  ((l.dropWhile isPySpace).reverse.dropWhile isPySpace).reverse

/-- Model of Python `str.strip()` / pandas `str.strip()`. -/
def pyStrip (s : String) : String := String.mk (stripChars s.data)

/-- Digit list to the natural number it denotes (most significant first). -/
def natOfDigits (l : List Char) : Nat := l.foldl (fun n c => n * 10 + (c.toNat - 48)) 0

def allDigits (l : List Char) : Bool := l.all Char.isDigit

/-- Split a character list at every occurrence of `sep`. -/
def splitOnChar (sep : Char) : List Char → List (List Char)
  | [] => [[]]
  | c :: t =>
    let r := splitOnChar sep t
    if c == sep then [] :: r
    else
      match r with
      | [] => [[c]]
      | h :: t2 => (c :: h) :: t2

/-- Model of Python numeric parsing of a decimal string (the success cases of
`pd.to_numeric` on a cell, line 257): optional sign, digits, at most one
decimal point; anything else (e.g. `"N/A"`) fails. -/
def parseUnsigned (l : List Char) : Option ℚ :=
  match splitOnChar '.' l with
  | [ip] => if ip ≠ [] ∧ allDigits ip then some (natOfDigits ip) else none
  | [ip, fp] =>
    if (ip ≠ [] ∨ fp ≠ []) ∧ allDigits ip ∧ allDigits fp then
      some ((natOfDigits (ip ++ fp) : ℚ) / (10 ^ fp.length))
    else none
  | _ => none

/-- Model of `pd.to_numeric(..., errors='coerce')` applied to one string cell
(line 257): parse failures yield `none` (NaN). -/
def parseDecimal (s : String) : Option ℚ :=
  match stripChars s.data with
  | '-' :: rest => (parseUnsigned rest).map (fun q => -q)
  | l => parseUnsigned l

/-- A calendar date (year, month, day). -/
structure DMY where
  year : Nat
  month : Nat
  day : Nat
deriving DecidableEq, Repr

def parseNatStr (l : List Char) : Option Nat :=
  if l ≠ [] ∧ allDigits l then some (natOfDigits l) else none

/-- Model of `pd.to_datetime(..., errors='coerce', dayfirst=True)` on one
string cell (line 254), for slash-separated day-first numeric dates
`"D/M/Y"`; other shapes coerce to `none` (NaT). -/
def parseDMY (s : String) : Option DMY :=
  match splitOnChar '/' (stripChars s.data) with
  | [d, m, y] =>
    match parseNatStr d, parseNatStr m, parseNatStr y with
    | some dd, some mm, some yy =>
      if 1 ≤ dd ∧ dd ≤ 31 ∧ 1 ≤ mm ∧ mm ≤ 12 then some ⟨yy, mm, dd⟩ else none
    | _, _, _ => none
  | _ => none

/-- Model of pandas `astype(str)` on a cell: nulls print as `"nan"`
(lines 260-262). -/
def cellToStr (c : Cell) : String :=
  match c with
  | none => "nan"
  | some s => s

/-- Index of the first column with a given name, if any. -/
def idxOf? (name : String) : List String → Option Nat
  | [] => none
  | h :: t => if h == name then some 0 else (idxOf? name t).map (· + 1)

/-- Cell of row `r` in the column named `name` of a header `H`
(first matching column, as in pandas label lookup). -/
def getCell (H : List String) (r : List Cell) (name : String) : Cell :=
  match idxOf? name H with
  | some i => r.getD i none
  | none => none

/-- The column named `name` of a frame, as the list of its cells in row order. -/
def colNamed (f : Frame) (name : String) : List Cell :=
  f.rows.map (fun r => getCell f.header r name)

/-- The synonym table of `process_csv_data` (lines 213-220), in source order. -/
def columnMapping : List (String × List String) :=
  [ ("DocNo", ["DocNo", "Document Number", "Doc No", "Docno"]),
    ("Date", ["Date", "Doc Date", "Document Date"]),
    ("Party", ["Party", "Customer", "Client", "Company"]),
    ("StockCode", ["StockCode", "Stock Code", "Item Code", "Product Code"]),
    ("Description", ["Description", "Item Description", "Product Description"]),
    ("Rate", ["Rate", "Amount", "Price", "Unit Price", "Gr.Amt"]) ]

/-- `required_columns` (line 231). -/
def requiredColumns : List String :=
  ["DocNo", "Date", "Party", "StockCode", "Description", "Rate"]

/-- One pass of the mapping loop body (lines 223-228): find the first synonym
present among the current columns; if it differs from the canonical name,
copy its column into the canonical name (`df[standard] = df[possible]`,
which overwrites an existing column in place or appends a new one). -/
def mapStep (f : Frame) (std : String) (syns : List String) : Frame :=
  match syns.find? (fun s => f.header.contains s) with
  | none => f
  | some syn =>
    if syn == std then f
    else
      match idxOf? std f.header with
      | some i =>
        { header := f.header,
          rows := f.rows.map (fun r => r.set i (getCell f.header r syn)) }
      | none =>
        { header := f.header ++ [std],
          rows := f.rows.map (fun r => r ++ [getCell f.header r syn]) }

/-- The full column-reconciliation pass (the loop of lines 223-228). -/
def applyMapping (f : Frame) : Frame :=
  columnMapping.foldl (fun g p => mapStep g p.1 p.2) f

/-- `df.columns = df.columns.str.strip()` (line 207). -/
def strippedOf (f : Frame) : Frame :=
  { header := f.header.map pyStrip, rows := f.rows }

/-- `df = df.dropna(how='all')` (line 210): drop rows whose cells are all null. -/
def droppedOf (f : Frame) : Frame :=
  { header := (strippedOf f).header,
    rows := (strippedOf f).rows.filter (fun r => !(r.all Option.isNone)) }

/-- The frame after header cleaning, empty-row dropping and column mapping
(state of `df` at line 230). -/
def mappedOf (f : Frame) : Frame := applyMapping (droppedOf f)

/-- `missing_columns` (line 232). -/
def missingOf (f : Frame) : List String :=
  requiredColumns.filter (fun c => !((mappedOf f).header.contains c))

/-- `df_filtered.dropna(subset=['DocNo', 'Party'])` (line 247): keep rows whose
DocNo and Party cells are non-null.  (pandas `dropna` drops only nulls;
non-null strings, even whitespace-only ones, are kept.) -/
def usableOf (f : Frame) : List (List Cell) :=
  (mappedOf f).rows.filter
    (fun r => (getCell (mappedOf f).header r "DocNo").isSome &&
              (getCell (mappedOf f).header r "Party").isSome)

/-- A row after the type coercions of lines 253-262. -/
structure NormRow where
  docNo : String
  date : Option DMY
  party : String
  stockCode : String
  description : String
  rate : ℚ
deriving DecidableEq, Repr

/-- The per-row effect of lines 253-262: day-first date parsing with coercion
to null, numeric rate with `fillna(0)`, and `astype(str).str.strip()` on the
text fields.  The DocNo column is left untouched by the source; on a usable
row it is non-null and we take its string value. -/
def toNorm (H : List String) (r : List Cell) : NormRow :=
  { docNo := (getCell H r "DocNo").getD ""
    date := (getCell H r "Date").bind parseDMY
    party := pyStrip (cellToStr (getCell H r "Party"))
    stockCode := pyStrip (cellToStr (getCell H r "StockCode"))
    description := pyStrip (cellToStr (getCell H r "Description"))
    rate := ((getCell H r "Rate").bind parseDecimal).getD 0 }

/-- The normalized usable rows of an upload. -/
def normsOf (f : Frame) : List NormRow :=
  (usableOf f).map (toNorm (mappedOf f).header)

/-- The members of the `DocNo` group `k`, in original row order (the rows a
`groupby('DocNo')` group holds). -/
def membersOf (f : Frame) (k : String) : List NormRow :=
  (normsOf f).filter (fun n => n.docNo == k)

/-- Insert a key into a sorted duplicate-free key list, keeping it sorted. -/
def insertKey (k : String) : List String → List String
  | [] => [k]
  | h :: t => if k = h then h :: t else if k < h then k :: h :: t else h :: insertKey k t

/-- The sorted duplicate-free list of group keys, as produced by
`groupby('DocNo')` with its default `sort=True` (line 265). -/
def sortKeys : List String → List String
  | [] => []
  | k :: t => insertKey k (sortKeys t)

/-- One aggregated tile. -/
structure Tile where
  docNo : String
  date : Option DMY
  party : String
  stockCode : String
  description : String
  rate : ℚ
  tileId : String
deriving DecidableEq, Repr

/-- The first non-null value of a column slice: pandas `GroupBy` `'first'`
skips nulls (lines 266-267). -/
def firstSome (l : List (Option DMY)) : Option DMY := (l.filterMap id).head?

/-- The aggregation of one `DocNo` group (lines 265-274): `'first'` on Date
(first non-null) and Party, separator joins on StockCode and Description,
sum on Rate, and `tile_id = str(DocNo) + '_tile'`. -/
def mkTile (k : String) (g : List NormRow) : Tile :=
  { docNo := k
    date := firstSome (g.map (fun n => n.date))
    party := ((g.map (fun n => n.party)).headD "")
    stockCode := String.intercalate ", " (g.map (fun n => n.stockCode))
    description := String.intercalate " | " (g.map (fun n => n.description))
    rate := (g.map (fun n => n.rate)).sum
    tileId := k ++ "_tile" }

/-- `groupby('DocNo').agg(...).reset_index()` plus the `tile_id` column
(lines 265-274): one tile per distinct DocNo, keys in sorted order, group
members in original row order. -/
def aggregateRows (ns : List NormRow) : List Tile :=
  (sortKeys (ns.map (fun n => n.docNo))).map
    (fun k => mkTile k (ns.filter (fun n => n.docNo == k)))

/-- Outcome of `process_csv_data`: the missing-columns error path
(lines 234-241, reporting `missing_columns` and `list(df.columns)`), the
no-valid-records path (lines 249-251), or the aggregated tiles. -/
inductive ProcessResult where
  | missingColumns (missing : List String) (available : List String)
  | noUsableRows
  | ok (tiles : List Tile)
deriving DecidableEq, Repr

/-- `process_csv_data` (lines 204-276). -/
def processFrame (f : Frame) : ProcessResult :=
  if missingOf f ≠ [] then .missingColumns (missingOf f) (mappedOf f).header
  else if usableOf f = [] then .noUsableRows
  else .ok (aggregateRows (normsOf f))

/-- The tile list a caller sees: both failure paths return an empty frame
(`return pd.DataFrame()`), i.e. zero tiles. -/
def tilesOf (r : ProcessResult) : List Tile :=
  match r with
  | .ok ts => ts
  | _ => []

/-! ### The module-level CSV upload handler (lines 337-350) -/

def listPrefixOf : List Char → List Char → Bool
  | [], _ => true
  | _ :: _, [] => false
  | a :: as, b :: bs => a == b && listPrefixOf as bs

def listContainsSub (pat : List Char) : List Char → Bool
  | [] => listPrefixOf pat []
  | c :: t => listPrefixOf pat (c :: t) || listContainsSub pat t

/-- Python `pat in s` substring test. -/
def strContains (s pat : String) : Bool := listContainsSub pat.data s.data

/-- Model of `pd.read_csv(..., skiprows=skip)` on already-split lines of cells:
the first surviving line is the header (a null header cell is presented by
pandas as `Unnamed: <position>`), the rest are data rows. -/
def readCsv (skip : Nat) (lines : List (List Cell)) : Frame :=
  match lines.drop skip with
  | [] => { header := [], rows := [] }
  | h :: t =>
    { header := h.enum.map (fun p =>
        match p.2 with
        | some s => s
        | none => "Unnamed: " ++ toString p.1),
      rows := t }

/-- The sentinel test of lines 343-344 on the first detected column name. -/
def isPlaceholder (c : String) : Bool :=
  strContains c "TRANSACTION CHECKLIST" || strContains c "Unnamed:"

/-- Lines 337-350: read the CSV; if the first column name carries the banner
sentinel or is an unnamed placeholder, re-read skipping the first line and
report the recovery (the Boolean is the `st.info` recovery notice). -/
def uploadHandler (lines : List (List Cell)) : Bool × Frame :=
  match (readCsv 0 lines).header with
  | [] => (false, readCsv 0 lines)
  | c0 :: _ => if isPlaceholder c0 then (true, readCsv 1 lines) else (false, readCsv 0 lines)

/-! ### Basic list lemmas -/

lemma contains_true_iff (l : List String) (a : String) : l.contains a = true ↔ a ∈ l := by
  rw [List.contains_iff_exists_mem_beq]
  constructor
  · rintro ⟨b, hb, he⟩
    exact beq_iff_eq.mp he ▸ hb
  · intro h
    exact ⟨a, h, by simp⟩

lemma idxOf?_of_mem {name : String} {l : List String} (h : name ∈ l) :
    ∃ i, idxOf? name l = some i ∧ i < l.length := by
  induction l with
  | nil => simp at h
  | cons a t ih =>
    by_cases hb : a = name
    · exact ⟨0, by simp [idxOf?, hb], by simp⟩
    · have ht : name ∈ t := by
        rcases List.mem_cons.mp h with h1 | h1
        · exact absurd h1.symm hb
        · exact h1
      obtain ⟨i, hi, hlt⟩ := ih ht
      refine ⟨i + 1, ?_, by simpa using Nat.succ_lt_succ hlt⟩
      simp [idxOf?, hb, hi]

lemma idxOf?_eq_none_of_not_mem {name : String} {l : List String} (h : name ∉ l) :
    idxOf? name l = none := by
  induction l with
  | nil => rfl
  | cons a t ih =>
    have ha : ¬ a = name := fun he => h (he ▸ List.mem_cons_self a t)
    have ht : name ∉ t := fun hm => h (List.mem_cons_of_mem _ hm)
    simp [idxOf?, ha, ih ht]

lemma idxOf?_append_left {name : String} {l : List String} {i : Nat}
    (h : idxOf? name l = some i) (l2 : List String) :
    idxOf? name (l ++ l2) = some i := by
  induction l generalizing i with
  | nil => simp [idxOf?] at h
  | cons a t ih =>
    by_cases hb : a = name
    · simp [idxOf?, hb] at h ⊢; exact h
    · simp [idxOf?, hb] at h ⊢
      obtain ⟨j, hj, hji⟩ := h
      exact ⟨j, ih hj, hji⟩

lemma idxOf?_append_self {name : String} {l : List String} (h : name ∉ l) :
    idxOf? name (l ++ [name]) = some l.length := by
  induction l with
  | nil => simp [idxOf?]
  | cons a t ih =>
    have ha : ¬ a = name := fun he => h (he ▸ List.mem_cons_self a t)
    have ht : name ∉ t := fun hm => h (List.mem_cons_of_mem _ hm)
    simp [idxOf?, ha, ih ht]

lemma getD_append_left {r e : List Cell} {i : Nat} (h : i < r.length) :
    (r ++ e).getD i none = r.getD i none := by
  induction r generalizing i with
  | nil => simp at h
  | cons a t ih =>
    cases i with
    | zero => simp
    | succ j => simpa using ih (Nat.lt_of_succ_lt_succ h)

lemma getD_append_self {r : List Cell} {v : Cell} :
    (r ++ [v]).getD r.length none = v := by
  induction r with
  | nil => simp
  | cons a t ih => simp [ih]

/-! ### Forall₂ helpers -/

lemma forall₂_comp {α β γ : Type} {R : α → β → Prop} {S : β → γ → Prop} {T : α → γ → Prop}
    {l : List α} {m : List β} {n : List γ}
    (h1 : List.Forall₂ R l m) (h2 : List.Forall₂ S m n)
    (hT : ∀ a b c, R a b → S b c → T a c) : List.Forall₂ T l n := by
  induction h1 generalizing n with
  | nil => cases h2; exact .nil
  | cons hab htl ih =>
    cases h2 with
    | cons hbc htl2 => exact .cons (hT _ _ _ hab hbc) (ih htl2)

lemma forall₂_mem_right {α β : Type} {R : α → β → Prop} {l : List α} {m : List β}
    (h : List.Forall₂ R l m) {b : β} (hb : b ∈ m) : ∃ a ∈ l, R a b := by
  induction h with
  | nil => simp at hb
  | cons hab htl ih =>
    rcases List.mem_cons.mp hb with rfl | hb2
    · exact ⟨_, List.mem_cons_self _ _, hab⟩
    · obtain ⟨a, ha, har⟩ := ih hb2
      exact ⟨a, List.mem_cons_of_mem _ ha, har⟩

lemma forall₂_map_self {α β : Type} {R : α → β → Prop} {l : List α} {g : α → β}
    (h : ∀ a ∈ l, R a (g a)) : List.Forall₂ R l (l.map g) := by
  induction l with
  | nil => exact .nil
  | cons a t ih =>
    exact .cons (h a (List.mem_cons_self _ _)) (ih fun x hx => h x (List.mem_cons_of_mem _ hx))

lemma map_eq_of_forall₂ {α β γ : Type} {R : α → β → Prop} {l : List α} {m : List β}
    (h : List.Forall₂ R l m) (F : β → γ) (G : α → γ)
    (hFG : ∀ a ∈ l, ∀ b, R a b → F b = G a) : m.map F = l.map G := by
  induction h with
  | nil => rfl
  | cons hab htl ih =>
    simp only [List.map_cons]
    rw [hFG _ (List.mem_cons_self _ _) _ hab,
      ih fun a ha b hr => hFG a (List.mem_cons_of_mem _ ha) b hr]

/-! ### Frame extension: the reconciliation pass only appends columns -/

/-- `g` extends `f` by appending the columns named `ext` on the right; the
original columns and their cells are untouched. -/
def Extends (f g : Frame) (ext : List String) : Prop :=
  g.header = f.header ++ ext ∧
  List.Forall₂ (fun r0 r1 => ∃ e : List Cell, r1 = r0 ++ e ∧ e.length = ext.length)
    f.rows g.rows

lemma extends_refl (f : Frame) : Extends f f [] := by
  refine ⟨by simp, ?_⟩
  rw [List.forall₂_same]
  intro a _
  exact ⟨[], by simp, by simp⟩

lemma extends_trans {f g h : Frame} {e1 e2 : List String}
    (h1 : Extends f g e1) (h2 : Extends g h e2) : Extends f h (e1 ++ e2) := by
  obtain ⟨hh1, hr1⟩ := h1
  obtain ⟨hh2, hr2⟩ := h2
  refine ⟨by rw [hh2, hh1, List.append_assoc], ?_⟩
  refine forall₂_comp hr1 hr2 ?_
  rintro a b c ⟨x, rfl, hx⟩ ⟨y, rfl, hy⟩
  exact ⟨x ++ y, by rw [List.append_assoc], by simp [hx, hy]⟩

lemma rect_extends {f g : Frame} {ext : List String}
    (hx : Extends f g ext) (hr : Rect f) : Rect g := by
  obtain ⟨hh, hrows⟩ := hx
  intro r1 h1
  obtain ⟨r0, hr0, e, rfl, he⟩ := forall₂_mem_right hrows h1
  rw [List.length_append, hh, List.length_append, hr r0 hr0, he]

lemma colNamed_extends {f g : Frame} {ext : List String} {name : String}
    (hx : Extends f g ext) (hr : Rect f) (hn : name ∈ f.header) :
    colNamed g name = colNamed f name := by
  obtain ⟨i, hi, hlt⟩ := idxOf?_of_mem hn
  obtain ⟨hh, hrows⟩ := hx
  unfold colNamed getCell
  rw [hh, idxOf?_append_left hi, hi]
  refine map_eq_of_forall₂ hrows _ _ ?_
  rintro r0 hr0 r1 ⟨e, rfl, he⟩
  exact getD_append_left (by rw [hr r0 hr0]; exact hlt)

/-! ### One pass of the synonym-mapping loop -/

lemma find?_contains_append (syns h ext : List String)
    (hd : ∀ e ∈ ext, e ∉ syns) :
    syns.find? (fun s => (h ++ ext).contains s) = syns.find? (fun s => h.contains s) := by
  induction syns with
  | nil => rfl
  | cons a t ih =>
    have hnotext : a ∉ ext := fun hmem => hd a hmem (List.mem_cons_self _ _)
    have hpred : ((h ++ ext).contains a) = (h.contains a) := by
      by_cases hmem : a ∈ h
      · rw [(contains_true_iff _ _).mpr hmem,
          (contains_true_iff _ _).mpr (List.mem_append_left _ hmem)]
      · have h1 : ¬ a ∈ h ++ ext := by
          intro hm
          rcases List.mem_append.mp hm with hm | hm
          · exact hmem hm
          · exact hnotext hm
        rw [Bool.eq_iff_iff]
        simp [contains_true_iff, hmem, h1]
    have iht : t.find? (fun s => (h ++ ext).contains s) = t.find? (fun s => h.contains s) :=
      ih fun e he hmem => hd e he (List.mem_cons_of_mem _ hmem)
    by_cases hc : h.contains a = true
    · rw [List.find?_cons_of_pos _ (by rw [hpred]; exact hc), List.find?_cons_of_pos _ hc]
    · rw [List.find?_cons_of_neg _ (by rw [hpred]; exact hc), List.find?_cons_of_neg _ hc, iht]

lemma mapStep_of_none {f : Frame} {std : String} {syns : List String}
    (h : syns.find? (fun s => f.header.contains s) = none) : mapStep f std syns = f := by
  unfold mapStep
  rw [h]

lemma mapStep_of_self {f : Frame} {std : String} {syns : List String}
    (h : syns.find? (fun s => f.header.contains s) = some std) : mapStep f std syns = f := by
  unfold mapStep
  rw [h]
  simp

lemma mapStep_of_other {f : Frame} {std : String} {syns : List String} {syn : String}
    (hh : syns.head? = some std)
    (h : syns.find? (fun s => f.header.contains s) = some syn) (hne : syn ≠ std) :
    std ∉ f.header ∧
    mapStep f std syns =
      { header := f.header ++ [std],
        rows := f.rows.map (fun r => r ++ [getCell f.header r syn]) } := by
  have hstd : std ∉ f.header := by
    intro hmem
    cases syns with
    | nil => simp at hh
    | cons a t =>
      have ha : a = std := by simpa using hh
      subst ha
      rw [List.find?_cons_of_pos _ ((contains_true_iff _ _).mpr hmem)] at h
      exact hne (Option.some.inj h).symm
  refine ⟨hstd, ?_⟩
  unfold mapStep
  simp only [h, beq_iff_eq, hne, if_false, idxOf?_eq_none_of_not_mem hstd]

lemma extends_append_col {f : Frame} {std : String} {syn : String} :
    Extends f
      { header := f.header ++ [std],
        rows := f.rows.map (fun r => r ++ [getCell f.header r syn]) } [std] := by
  refine ⟨rfl, ?_⟩
  refine forall₂_map_self ?_
  intro r _
  exact ⟨[getCell f.header r syn], rfl, rfl⟩

lemma colNamed_append_col {f : Frame} {std : String} {syn : String}
    (hr : Rect f) (hstd : std ∉ f.header) :
    colNamed
      { header := f.header ++ [std],
        rows := f.rows.map (fun r => r ++ [getCell f.header r syn]) } std
      = colNamed f syn := by
  unfold colNamed getCell
  rw [idxOf?_append_self hstd]
  rw [List.map_map]
  refine List.map_congr_left ?_
  intro r hrm
  simp only [Function.comp]
  rw [← hr r hrm, getD_append_self]

lemma head?_mem {α : Type} {l : List α} {a : α} (h : l.head? = some a) : a ∈ l := by
  cases l with
  | nil => simp at h
  | cons b t =>
    have hb : b = a := by simpa using h
    exact hb ▸ List.mem_cons_self _ _

/-- The workhorse: folding the synonym-mapping step over a field list whose
canonical name heads its own synonym list, whose canonical names are pairwise
distinct, and in which no canonical name occurs in another field's synonym
list (all hold for `columnMapping`, by computation).  The fold only appends
columns; a canonical column ends up present iff one of its synonyms was
present; and when the first present synonym is `s`, the canonical column's
values are exactly the source values of column `s`. -/
lemma foldMap_spec (fields : List (String × List String)) (f : Frame) (hrect : Rect f)
    (hhead : ∀ p ∈ fields, p.2.head? = some p.1)
    (hdisj : List.Pairwise (fun p q => p.1 ∉ q.2) fields)
    (hnodup : (fields.map Prod.fst).Nodup) :
    ∃ ext,
      Extends f (fields.foldl (fun g q => mapStep g q.1 q.2) f) ext ∧
      (∀ e ∈ ext, ∃ p ∈ fields, e = p.1 ∧ ∃ s ∈ p.2, s ∈ f.header) ∧
      ∀ p ∈ fields,
        (p.1 ∈ (fields.foldl (fun g q => mapStep g q.1 q.2) f).header ↔
          ∃ s ∈ p.2, s ∈ f.header) ∧
        ∀ s, p.2.find? (fun s2 => f.header.contains s2) = some s →
          colNamed (fields.foldl (fun g q => mapStep g q.1 q.2) f) p.1 = colNamed f s := by
  induction fields generalizing f with
  | nil =>
    exact ⟨[], extends_refl f, by simp, by simp⟩
  | cons p t ih =>
    have hheadp := hhead p (List.mem_cons_self _ _)
    have hheadt : ∀ q ∈ t, q.2.head? = some q.1 :=
      fun q hq => hhead q (List.mem_cons_of_mem _ hq)
    have hdp : ∀ q ∈ t, p.1 ∉ q.2 := (List.pairwise_cons.mp hdisj).1
    have hdt := (List.pairwise_cons.mp hdisj).2
    have hnodup2 : (p.1 :: t.map Prod.fst).Nodup := by simpa using hnodup
    have hnd1 : p.1 ∉ t.map Prod.fst := (List.nodup_cons.mp hnodup2).1
    have hndt : (t.map Prod.fst).Nodup := (List.nodup_cons.mp hnodup2).2
    have hfold : (p :: t).foldl (fun g q => mapStep g q.1 q.2) f
        = t.foldl (fun g q => mapStep g q.1 q.2) (mapStep f p.1 p.2) := rfl
    rcases hfs : p.2.find? (fun s => f.header.contains s) with _ | syn
    · -- no synonym of `p` present: the step is a no-op
      have hstep : mapStep f p.1 p.2 = f := mapStep_of_none hfs
      obtain ⟨ext, hex, hchar, hfields⟩ := ih f hrect hheadt hdt hndt
      rw [hfold, hstep]
      refine ⟨ext, hex, ?_, ?_⟩
      · intro e he
        obtain ⟨q, hq, he1, s, hs1, hs2⟩ := hchar e he
        exact ⟨q, List.mem_cons_of_mem _ hq, he1, s, hs1, hs2⟩
      · intro q hq
        rcases List.mem_cons.mp hq with rfl | hqt

        · refine ⟨⟨?_, ?_⟩, ?_⟩
          · intro hmem
            exfalso
            obtain ⟨hh, _⟩ := hex
            rw [hh] at hmem
            rcases List.mem_append.mp hmem with hmem | hmem
            · have hp1 : q.1 ∈ q.2 := head?_mem hheadp
              have : (q.2.find? (fun s => f.header.contains s)).isSome :=
                List.find?_isSome.mpr ⟨q.1, hp1, (contains_true_iff _ _).mpr hmem⟩
              rw [hfs] at this
              simp at this
            · obtain ⟨q2, hq2, he1, _⟩ := hchar _ hmem
              exact hnd1 (he1 ▸ List.mem_map_of_mem Prod.fst hq2)
          · rintro ⟨s, hs1, hs2⟩
            exfalso
            have : (q.2.find? (fun s2 => f.header.contains s2)).isSome :=
              List.find?_isSome.mpr ⟨s, hs1, (contains_true_iff _ _).mpr hs2⟩
            rw [hfs] at this
            simp at this
          · intro s hsf
            rw [hfs] at hsf
            cases hsf
        · exact hfields q hqt
    · by_cases hsyn : syn = p.1
      · -- the canonical name itself is the first present synonym: no-op
        subst hsyn
        have hstep : mapStep f p.1 p.2 = f := mapStep_of_self hfs
        obtain ⟨ext, hex, hchar, hfields⟩ := ih f hrect hheadt hdt hndt
        rw [hfold, hstep]
        refine ⟨ext, hex, ?_, ?_⟩
        · intro e he
          obtain ⟨q, hq, he1, s, hs1, hs2⟩ := hchar e he
          exact ⟨q, List.mem_cons_of_mem _ hq, he1, s, hs1, hs2⟩
        · intro q hq
          rcases List.mem_cons.mp hq with rfl | hqt
          · have hmemf : q.1 ∈ f.header :=
              (contains_true_iff _ _).mp (List.find?_some hfs)
            have hmemsyns : q.1 ∈ q.2 := List.mem_of_find?_eq_some hfs
            refine ⟨⟨fun _ => ⟨q.1, hmemsyns, hmemf⟩, fun _ => ?_⟩, ?_⟩
            · obtain ⟨hh, _⟩ := hex
              rw [hh]
              exact List.mem_append_left _ hmemf
            · intro s hsf
              rw [hfs] at hsf
              have hs : s = q.1 := (Option.some.inj hsf).symm
              subst hs
              exact colNamed_extends hex hrect hmemf
          · exact hfields q hqt
      · -- a proper synonym is first present: a fresh canonical column is appended
        obtain ⟨hstd, hstep⟩ := mapStep_of_other hheadp hfs hsyn
        have hex1 : Extends f (mapStep f p.1 p.2) [p.1] := by
          rw [hstep]; exact extends_append_col
        have hrect1 : Rect (mapStep f p.1 p.2) := rect_extends hex1 hrect
        have hcol1 : colNamed (mapStep f p.1 p.2) p.1 = colNamed f syn := by
          rw [hstep]; exact colNamed_append_col hrect hstd
        have hheader1 : (mapStep f p.1 p.2).header = f.header ++ [p.1] := by
          rw [hstep]
        obtain ⟨ext, hex, hchar, hfields⟩ := ih (mapStep f p.1 p.2) hrect1 hheadt hdt hndt
        rw [hfold]
        have hsynmem : syn ∈ p.2 := List.mem_of_find?_eq_some hfs
        have hsynf : syn ∈ f.header := (contains_true_iff _ _).mp (List.find?_some hfs)
        refine ⟨p.1 :: ext, ?_, ?_, ?_⟩
        · have := extends_trans hex1 hex
          simpa using this
        · intro e he
          rcases List.mem_cons.mp he with rfl | he2
          · exact ⟨p, List.mem_cons_self _ _, rfl, syn, hsynmem, hsynf⟩
          · obtain ⟨q, hq, he1, s, hs1, hs2⟩ := hchar e he2
            refine ⟨q, List.mem_cons_of_mem _ hq, he1, s, hs1, ?_⟩
            rw [hheader1] at hs2
            rcases List.mem_append.mp hs2 with hs2 | hs2
            · exact hs2
            · exfalso
              have he3 : s = p.1 := by simpa using hs2
              exact hdp q hq (he3 ▸ hs1)
        · intro q hq
          rcases List.mem_cons.mp hq with rfl | hqt
          · refine ⟨⟨fun _ => ⟨syn, hsynmem, hsynf⟩, fun _ => ?_⟩, ?_⟩
            · obtain ⟨hh, _⟩ := hex
              rw [hh, hheader1]
              exact List.mem_append_left _ (List.mem_append_right _ (by simp))
            · intro s hsf
              rw [hfs] at hsf
              have hs : s = syn := (Option.some.inj hsf).symm
              subst hs
              have hmem1 : q.1 ∈ (mapStep f q.1 q.2).header := by
                rw [hheader1]
                exact List.mem_append_right _ (by simp)
              rw [colNamed_extends hex hrect1 hmem1, hcol1]
          · have hq2 := hfields q hqt
            have hdpq : p.1 ∉ q.2 := hdp q hqt
            have hcongr : q.2.find? (fun s => (mapStep f p.1 p.2).header.contains s)
                = q.2.find? (fun s => f.header.contains s) := by
              rw [hheader1]
              refine find?_contains_append _ _ _ ?_
              intro e he
              have he2 : e = p.1 := by simpa using he
              exact he2 ▸ hdpq
            refine ⟨?_, ?_⟩
            · rw [hq2.1]
              constructor
              · rintro ⟨s, hs1, hs2⟩
                rw [hheader1] at hs2
                rcases List.mem_append.mp hs2 with h2 | h2
                · exact ⟨s, hs1, h2⟩
                · exfalso
                  have he3 : s = p.1 := by simpa using h2
                  exact hdpq (he3 ▸ hs1)
              · rintro ⟨s, hs1, hs2⟩
                exact ⟨s, hs1, by rw [hheader1]; exact List.mem_append_left _ hs2⟩
            · intro s hsf
              have hsf1 : q.2.find? (fun s2 => (mapStep f p.1 p.2).header.contains s2) = some s := by
                rw [hcongr]; exact hsf
              rw [hq2.2 s hsf1]
              have hsmem : s ∈ f.header := (contains_true_iff _ _).mp (List.find?_some hsf)
              exact colNamed_extends hex1 hrect hsmem

/-- `foldMap_spec` instantiated at the concrete synonym table. -/
lemma applyMapping_spec (f : Frame) (hrect : Rect f) :
    ∃ ext,
      Extends f (applyMapping f) ext ∧
      (∀ e ∈ ext, ∃ p ∈ columnMapping, e = p.1 ∧ ∃ s ∈ p.2, s ∈ f.header) ∧
      ∀ p ∈ columnMapping,
        (p.1 ∈ (applyMapping f).header ↔ ∃ s ∈ p.2, s ∈ f.header) ∧
        ∀ s, p.2.find? (fun s2 => f.header.contains s2) = some s →
          colNamed (applyMapping f) p.1 = colNamed f s :=
  foldMap_spec columnMapping f hrect (by decide) (by decide) (by decide)

/-! ### Group keys are sorted and duplicate-free -/

lemma insertKey_ne_nil (k : String) (l : List String) : insertKey k l ≠ [] := by
  cases l with
  | nil => simp [insertKey]
  | cons h t =>
    unfold insertKey
    split
    · simp
    · split <;> simp

lemma mem_insertKey (a k : String) (l : List String) :
    a ∈ insertKey k l ↔ a = k ∨ a ∈ l := by
  induction l with
  | nil => simp [insertKey]
  | cons h t ih =>
    unfold insertKey
    by_cases h1 : k = h
    · subst h1
      simp only [if_true]
      constructor
      · intro hm
        exact Or.inr hm
      · intro hm
        rcases hm with rfl | hm
        · exact List.mem_cons_self _ _
        · exact hm
    · by_cases h2 : k < h
      · simp [h1, h2, List.mem_cons]
      · simp only [h1, h2, if_false, List.mem_cons, ih]
        tauto

lemma pairwise_insertKey {k : String} {l : List String} (h : l.Pairwise (· < ·)) :
    (insertKey k l).Pairwise (· < ·) := by
  induction l with
  | nil => simp [insertKey]
  | cons a t ih =>
    rcases List.pairwise_cons.mp h with ⟨ha, ht⟩
    unfold insertKey
    by_cases h1 : k = a
    · simpa [h1] using h
    · by_cases h2 : k < a
      · simp only [h1, h2, if_false, if_true]
        refine List.pairwise_cons.mpr ⟨?_, h⟩
        intro b hb
        rcases List.mem_cons.mp hb with rfl | hbt
        · exact h2
        · exact lt_trans h2 (ha b hbt)
      · have hak : a < k :=
          lt_of_le_of_ne (le_of_not_lt h2) (fun he => h1 he.symm)
        simp only [h1, h2, if_false]
        refine List.pairwise_cons.mpr ⟨?_, ih ht⟩
        intro b hb
        rcases (mem_insertKey b k t).mp hb with rfl | hbt
        · exact hak
        · exact ha b hbt

lemma pairwise_sortKeys (l : List String) : (sortKeys l).Pairwise (· < ·) := by
  induction l with
  | nil => simp [sortKeys]
  | cons a t ih => exact pairwise_insertKey ih

lemma mem_sortKeys (a : String) (l : List String) : a ∈ sortKeys l ↔ a ∈ l := by
  induction l with
  | nil => simp [sortKeys]
  | cons b t ih => simp [sortKeys, mem_insertKey, ih]

lemma sortKeys_ne_nil {l : List String} (h : l ≠ []) : sortKeys l ≠ [] := by
  cases l with
  | nil => exact absurd rfl h
  | cons a t => exact insertKey_ne_nil _ _

lemma nodup_sortKeys (l : List String) : (sortKeys l).Nodup :=
  List.Pairwise.imp (fun h => ne_of_lt h) (pairwise_sortKeys l)

/-! ### Aggregation lemmas -/

lemma mkTile_docNo (k : String) (g : List NormRow) : (mkTile k g).docNo = k := rfl

lemma mkTile_stockCode (k : String) (g : List NormRow) :
    (mkTile k g).stockCode = String.intercalate ", " (g.map (fun n => n.stockCode)) := rfl

lemma mkTile_description (k : String) (g : List NormRow) :
    (mkTile k g).description = String.intercalate " | " (g.map (fun n => n.description)) := rfl

lemma mkTile_rate (k : String) (g : List NormRow) :
    (mkTile k g).rate = (g.map (fun n => n.rate)).sum := rfl

lemma filter_map_mkTile {l : List String} (hnd : l.Nodup) {k : String} (hk : k ∈ l)
    (F : String → List NormRow) :
    (l.map (fun k2 => mkTile k2 (F k2))).filter (fun t => t.docNo == k)
      = [mkTile k (F k)] := by
  induction l with
  | nil => simp at hk
  | cons a t ih =>
    rcases List.nodup_cons.mp hnd with ⟨hna, hnt⟩
    simp only [List.map_cons, List.filter_cons]
    rcases List.mem_cons.mp hk with rfl | hkt
    · rw [show ((mkTile k (F k)).docNo == k) = true by simp [mkTile_docNo]]
      simp only [if_true]
      have hrest : (t.map (fun k2 => mkTile k2 (F k2))).filter (fun t2 => t2.docNo == k) = [] := by
        rw [List.filter_eq_nil_iff]
        intro x hx
        obtain ⟨b, hb, rfl⟩ := List.mem_map.mp hx
        simp only [mkTile_docNo, beq_iff_eq]
        exact fun he => hna (he ▸ hb)
      rw [hrest]
    · have hne : ¬ a = k := fun he => hna (he ▸ hkt)
      rw [show ((mkTile a (F a)).docNo == k) = false by simp [mkTile_docNo, hne]]
      simp only [Bool.false_eq_true, if_false]
      exact ih hnt hkt

lemma aggregate_filter_eq {ns : List NormRow} {k : String}
    (hk : k ∈ ns.map (fun n => n.docNo)) :
    (aggregateRows ns).filter (fun t => t.docNo == k)
      = [mkTile k (ns.filter (fun n => n.docNo == k))] := by
  unfold aggregateRows
  exact filter_map_mkTile (nodup_sortKeys _) ((mem_sortKeys _ _).mpr hk) _

lemma mem_aggregate {ns : List NormRow} {k : String}
    (hk : k ∈ ns.map (fun n => n.docNo)) :
    mkTile k (ns.filter (fun n => n.docNo == k)) ∈ aggregateRows ns := by
  unfold aggregateRows
  exact List.mem_map_of_mem _ ((mem_sortKeys _ _).mpr hk)

lemma aggregate_ne_nil {ns : List NormRow} (h : ns ≠ []) : aggregateRows ns ≠ [] := by
  unfold aggregateRows
  intro hc
  exact sortKeys_ne_nil (by simpa using h) (List.map_eq_nil_iff.mp hc)

lemma mem_aggregate_elim {ns : List NormRow} {t : Tile} (h : t ∈ aggregateRows ns) :
    ∃ k, k ∈ ns.map (fun n => n.docNo) ∧ t = mkTile k (ns.filter (fun n => n.docNo == k)) := by
  unfold aggregateRows at h
  obtain ⟨k, hk, rfl⟩ := List.mem_map.mp h
  exact ⟨k, (mem_sortKeys _ _).mp hk, rfl⟩

/-! ### `processFrame` case analysis -/

lemma processFrame_eq_ok {f : Frame} {ts : List Tile} (h : processFrame f = .ok ts) :
    missingOf f = [] ∧ usableOf f ≠ [] ∧ ts = aggregateRows (normsOf f) := by
  unfold processFrame at h
  by_cases h1 : missingOf f = []
  · by_cases h2 : usableOf f = []
    · simp [h1, h2] at h
    · simp only [h1, h2, ne_eq, not_true_eq_false, if_false, not_false_eq_true, if_true] at h
      exact ⟨h1, h2, (ProcessResult.ok.inj h).symm⟩
  · simp [h1] at h

lemma processFrame_of_ok {f : Frame} (h1 : missingOf f = []) (h2 : usableOf f ≠ []) :
    processFrame f = .ok (aggregateRows (normsOf f)) := by
  unfold processFrame
  simp [h1, h2]

lemma required_to_mapping : ∀ c ∈ requiredColumns, ∃ p ∈ columnMapping, p.1 = c := by
  decide

/-! ### Concrete inputs used by witnesses and counterexamples -/

/-- The minimal-success scenario input of spec §8. -/
def scenarioFrame : Frame :=
  { header := ["DocNo", "Date", "Party", "StockCode", "Description", "Rate"],
    rows := [ [some "1", some "01/02/2024", some "Acme", some "E100", some "Widget", some "10.50"],
              [some "1", some "01/02/2024", some "Acme", some "E200", some "Gadget", some "5.00"] ] }

/-- Two rows of one document; the earliest row's Date does not parse. -/
def C1cexFrame : Frame :=
  { header := ["DocNo", "Date", "Party", "StockCode", "Description", "Rate"],
    rows := [ [some "1", some "bad", some "A", some "X", some "D1", some "1"],
              [some "1", some "02/03/2024", some "A", some "Y", some "D2", some "2"] ] }

/-- A header binding DocumentId through the synonym `Docno` while every other
canonical field is unresolved. -/
def C3cexFrame : Frame :=
  { header := ["Docno", "X"], rows := [[some "1", some "z"]] }

/-- Two rows of one document; the first row's Party is whitespace only
(non-null, but empty after trimming). -/
def C7cexFrame : Frame :=
  { header := ["DocNo", "Date", "Party", "StockCode", "Description", "Rate"],
    rows := [ [some "1", some "05/06/2024", some " ", some "X", some "D1", some "1"],
              [some "1", some "05/06/2024", some "Acme", some "Y", some "D2", some "2"] ] }

/-- An all-synonym header: every canonical field appears under a proper
synonym, in the source's column order. -/
def C2wFrame : Frame :=
  { header := ["Doc No", "Doc Date", "Customer", "Item Code", "Item Description", "Amount"],
    rows := [[some "7", some "02/03/2024", some "Zeta", some "K1", some "Thing", some "8"]] }

/-- The synonym chosen for each canonical field in `C2wFrame`. -/
def C2wSel : String → String := fun c =>
  if c = "DocNo" then "Doc No"
  else if c = "Date" then "Doc Date"
  else if c = "Party" then "Customer"
  else if c = "StockCode" then "Item Code"
  else if c = "Description" then "Item Description"
  else "Amount"

/-- Two rows of one document, each with exactly one bad cell: the first has an
unparseable Rate (`"N/A"`) but a parseable Date, the second an unparseable
Date but a parseable Rate. -/
def C6wFrame : Frame :=
  { header := ["DocNo", "Date", "Party", "StockCode", "Description", "Rate"],
    rows := [ [some "9", some "01/02/2024", some "P", some "S1", some "D1", some "N/A"],
              [some "9", some "zz", some "P", some "S2", some "D2", some "4"] ] }

/-- A CSV whose first line is a banner row; the true headers are on line two. -/
def C8wLines : List (List Cell) :=
  [ [some "TRANSACTION CHECKLIST", none, none, none, none, none],
    [some "DocNo", some "Date", some "Party", some "StockCode", some "Description", some "Rate"],
    [some "1", some "01/02/2024", some "Acme", some "E1", some "W", some "3"] ]

/-! ### Claims -/

/-- Claim C2 (confirmed): for every rectangular table in which each canonical
field has at least one synonym present, reconciliation binds each canonical
field to the first synonym of its fixed documented list that is present among
the source columns (the hypothesis names that first present synonym via
`find?`), every canonical column then exists, and the canonical column's
values are exactly the bound source column's values — so the canonical
mapping depends only on the bound columns' contents, not on which synonym
named them or where they stood. -/
theorem C2_first_synonym_binding (f : Frame) (hrect : Rect f) (sel : String → String)
    (hsel : ∀ p ∈ columnMapping, p.2.find? (fun s => f.header.contains s) = some (sel p.1)) :
    requiredColumns.filter (fun c => !((applyMapping f).header.contains c)) = [] ∧
    ∀ p ∈ columnMapping, colNamed (applyMapping f) p.1 = colNamed f (sel p.1) := by
  obtain ⟨ext, hex, hchar, hfields⟩ := applyMapping_spec f hrect
  constructor
  · rw [List.filter_eq_nil_iff]
    intro c hc
    obtain ⟨p, hp, rfl⟩ := required_to_mapping c hc
    have hmem : p.1 ∈ (applyMapping f).header := by
      refine (hfields p hp).1.mpr ?_
      refine ⟨sel p.1, List.mem_of_find?_eq_some (hsel p hp), ?_⟩
      exact (contains_true_iff _ _).mp (List.find?_some (hsel p hp))
    simp [contains_true_iff, hmem]
  · intro p hp
    exact (hfields p hp).2 (sel p.1) (hsel p hp)

/-- Witness for C2 at a concrete all-synonym header. -/
theorem C2_first_synonym_binding_witness :
    requiredColumns.filter (fun c => !((applyMapping C2wFrame).header.contains c)) = [] ∧
    colNamed (applyMapping C2wFrame) "DocNo" = colNamed C2wFrame "Doc No" ∧
    colNamed (applyMapping C2wFrame) "Rate" = colNamed C2wFrame "Amount" := by
  have h := C2_first_synonym_binding C2wFrame (by decide) C2wSel (by decide)
  refine ⟨h.1, ?_, ?_⟩
  · have h2 := h.2 ("DocNo", ["DocNo", "Document Number", "Doc No", "Docno"]) (by decide)
    rw [show C2wSel "DocNo" = "Doc No" by decide] at h2
    exact h2
  · have h2 := h.2 ("Rate", ["Rate", "Amount", "Price", "Unit Price", "Gr.Amt"]) (by decide)
    rw [show C2wSel "Rate" = "Amount" by decide] at h2
    exact h2

/-- Claim C9 (confirmed): the reconciliation pass has no observable effect on
the source table beyond producing the bound columns — it only appends new
canonical columns on the right; every original column name keeps its position
and every original column keeps exactly its cell values. -/
theorem C9_reconciliation_no_mutation (f : Frame) (hrect : Rect f) :
    ∃ ext, (applyMapping f).header = f.header ++ ext ∧
      List.Forall₂ (fun r0 r1 => ∃ e, r1 = r0 ++ e) f.rows (applyMapping f).rows ∧
      ∀ s ∈ f.header, colNamed (applyMapping f) s = colNamed f s := by
  obtain ⟨ext, hex, _, _⟩ := applyMapping_spec f hrect
  obtain ⟨hh, hrows⟩ := hex
  refine ⟨ext, hh, ?_, fun s hs => colNamed_extends ⟨hh, hrows⟩ hrect hs⟩
  refine List.Forall₂.imp ?_ hrows
  rintro a b ⟨e, he, _⟩
  exact ⟨e, he⟩

/-- Witness for C9 at a concrete synonym header. -/
theorem C9_reconciliation_no_mutation_witness :
    ∃ ext, (applyMapping C2wFrame).header = C2wFrame.header ++ ext ∧
      List.Forall₂ (fun r0 r1 => ∃ e, r1 = r0 ++ e) C2wFrame.rows (applyMapping C2wFrame).rows ∧
      ∀ s ∈ C2wFrame.header, colNamed (applyMapping C2wFrame) s = colNamed C2wFrame s :=
  C9_reconciliation_no_mutation C2wFrame (by decide)

section
attribute [local semireducible] Rat.add Rat.mul Rat.inv Rat.sub

/-- Counterexample to claim C1 as stated: the claim takes a tile's Date from
the earliest member row in input order, but pandas `GroupBy` `'first'` skips
nulls.  In `C1cexFrame` the earliest member of document `"1"` has an
unparseable Date (normalized to `none`), yet the produced tile's Date is the
second row's `2024-03-02`, not "absent". -/
theorem C1_counterexample :
    (tilesOf (processFrame C1cexFrame)).map Tile.date = [some ⟨2024, 3, 2⟩] ∧
    ((normsOf C1cexFrame).map NormRow.date).head? = some none := by
  decide

/-- Claim C1 (corrected): aggregation produces exactly one tile per distinct
DocumentId, with Party from the earliest member row, StockCode/Description
the separator-joined concatenations over all members in input order with
duplicates preserved, Rate the sum of member rates, and Date from the
earliest member row *whose Date is non-null* (pandas `'first'` skips nulls;
this is the one amendment the counterexample forces).  The two-row
minimal-success scenario of §8 yields exactly the claimed single tile. -/
theorem C1_one_tile_per_document :
    (∀ (ns : List NormRow) (k : String), k ∈ ns.map (fun n => n.docNo) →
      (aggregateRows ns).filter (fun t => t.docNo == k) =
        [{ docNo := k,
           date := firstSome ((ns.filter (fun n => n.docNo == k)).map (fun n => n.date)),
           party := ((ns.filter (fun n => n.docNo == k)).map (fun n => n.party)).headD "",
           stockCode := String.intercalate ", "
             ((ns.filter (fun n => n.docNo == k)).map (fun n => n.stockCode)),
           description := String.intercalate " | "
             ((ns.filter (fun n => n.docNo == k)).map (fun n => n.description)),
           rate := ((ns.filter (fun n => n.docNo == k)).map (fun n => n.rate)).sum,
           tileId := k ++ "_tile" }]) ∧
    processFrame scenarioFrame =
      .ok [{ docNo := "1", date := some ⟨2024, 2, 1⟩, party := "Acme",
             stockCode := "E100, E200", description := "Widget | Gadget",
             rate := 31/2, tileId := "1_tile" }] := by
  constructor
  · intro ns k hk
    rw [aggregate_filter_eq hk]
    rfl
  · decide

/-- Witness for C1 at the §8 scenario input and its document id. -/
theorem C1_one_tile_per_document_witness :
    "1" ∈ (normsOf scenarioFrame).map (fun n => n.docNo) ∧
    (aggregateRows (normsOf scenarioFrame)).filter (fun t => t.docNo == "1") =
      [{ docNo := "1",
         date := firstSome (((normsOf scenarioFrame).filter
           (fun n => n.docNo == "1")).map (fun n => n.date)),
         party := (((normsOf scenarioFrame).filter
           (fun n => n.docNo == "1")).map (fun n => n.party)).headD "",
         stockCode := String.intercalate ", " (((normsOf scenarioFrame).filter
           (fun n => n.docNo == "1")).map (fun n => n.stockCode)),
         description := String.intercalate " | " (((normsOf scenarioFrame).filter
           (fun n => n.docNo == "1")).map (fun n => n.description)),
         rate := (((normsOf scenarioFrame).filter
           (fun n => n.docNo == "1")).map (fun n => n.rate)).sum,
         tileId := "1" ++ "_tile" }] :=
  ⟨by decide, C1_one_tile_per_document.1 (normsOf scenarioFrame) "1" (by decide)⟩

end

/-- Claim C4 (confirmed): every produced tile's TileId is exactly its
DocumentId followed by the fixed suffix `"_tile"`, and the TileId attached to
a document id is the same whatever rows its group holds. -/
theorem C4_tile_identity (f : Frame) (ts : List Tile) (t : Tile)
    (hok : processFrame f = .ok ts) (ht : t ∈ ts) :
    t.tileId = t.docNo ++ "_tile" ∧
    ∀ g : List NormRow, (mkTile t.docNo g).tileId = t.tileId := by
  obtain ⟨_, _, rfl⟩ := processFrame_eq_ok hok
  obtain ⟨k, hk, rfl⟩ := mem_aggregate_elim ht
  exact ⟨rfl, fun g => rfl⟩

/-- Witness for C4 at the §8 scenario input. -/
theorem C4_tile_identity_witness :
    processFrame scenarioFrame = .ok (aggregateRows (normsOf scenarioFrame)) ∧
    ∀ t ∈ aggregateRows (normsOf scenarioFrame),
      t.tileId = t.docNo ++ "_tile" := by
  have hok : processFrame scenarioFrame = .ok (aggregateRows (normsOf scenarioFrame)) :=
    processFrame_of_ok (by decide) (by decide)
  exact ⟨hok, fun t ht => (C4_tile_identity scenarioFrame _ t hok ht).1⟩

/-- Claim C10 (confirmed): the produced tile sequence is ordered by strictly
ascending DocumentId (the group-by sorts its keys), so the output order is a
deterministic function of the set of DocumentIds present among the usable
rows, not of their order of first appearance. -/
theorem C10_tiles_sorted_by_docno (f : Frame) (ts : List Tile)
    (hok : processFrame f = .ok ts) :
    (ts.map Tile.docNo).Pairwise (· < ·) ∧
    ∀ d, d ∈ ts.map Tile.docNo ↔ d ∈ (normsOf f).map NormRow.docNo := by
  obtain ⟨_, _, rfl⟩ := processFrame_eq_ok hok
  have hmap : (aggregateRows (normsOf f)).map Tile.docNo
      = sortKeys ((normsOf f).map (fun n => n.docNo)) := by
    unfold aggregateRows
    rw [List.map_map]
    have hcomp : (Tile.docNo ∘ fun k => mkTile k ((normsOf f).filter (fun n => n.docNo == k)))
        = id := by
      funext k
      rfl
    rw [hcomp, List.map_id]
  rw [hmap]
  exact ⟨pairwise_sortKeys _, fun d => mem_sortKeys _ _⟩

/-- Witness for C10 at the §8 scenario input. -/
theorem C10_tiles_sorted_by_docno_witness :
    processFrame scenarioFrame = .ok (aggregateRows (normsOf scenarioFrame)) ∧
    ((aggregateRows (normsOf scenarioFrame)).map Tile.docNo).Pairwise (· < ·) := by
  have hok : processFrame scenarioFrame = .ok (aggregateRows (normsOf scenarioFrame)) :=
    processFrame_of_ok (by decide) (by decide)
  exact ⟨hok, (C10_tiles_sorted_by_docno scenarioFrame _ hok).1⟩

/-- Claim C6 (confirmed): a per-cell coercion failure never drops the row, and
each cell fails independently of the others.  For every usable row: if its
Rate cell fails numeric coercion its normalized Rate is `0`; if its Date cell
fails date parsing its Date is recorded absent; and in every case — whichever
cells failed, if any — the row stays a member of its document's group, whose
tile carries its StockCode inside the comma join, its Description inside the
pipe join, and its Rate inside the group sum. -/
theorem C6_bad_cell_keeps_row (f : Frame) (r : List Cell)
    (hm : missingOf f = []) (hr : r ∈ usableOf f) :
    ((getCell (mappedOf f).header r "Rate").bind parseDecimal = none →
      (toNorm (mappedOf f).header r).rate = 0) ∧
    ((getCell (mappedOf f).header r "Date").bind parseDMY = none →
      (toNorm (mappedOf f).header r).date = none) ∧
    toNorm (mappedOf f).header r ∈ membersOf f (toNorm (mappedOf f).header r).docNo ∧
    ∃ ts, processFrame f = .ok ts ∧
      ∃ t ∈ ts, t.docNo = (toNorm (mappedOf f).header r).docNo ∧
        t.stockCode = String.intercalate ", "
          ((membersOf f (toNorm (mappedOf f).header r).docNo).map (fun n => n.stockCode)) ∧
        t.description = String.intercalate " | "
          ((membersOf f (toNorm (mappedOf f).header r).docNo).map (fun n => n.description)) ∧
        t.rate = ((membersOf f (toNorm (mappedOf f).header r).docNo).map (fun n => n.rate)).sum := by
  have h1 : (getCell (mappedOf f).header r "Rate").bind parseDecimal = none →
      (toNorm (mappedOf f).header r).rate = 0 := by
    intro hrate
    show ((getCell (mappedOf f).header r "Rate").bind parseDecimal).getD 0 = 0
    rw [hrate]
    rfl
  have h2 : (getCell (mappedOf f).header r "Date").bind parseDMY = none →
      (toNorm (mappedOf f).header r).date = none := by
    intro hdate
    show (getCell (mappedOf f).header r "Date").bind parseDMY = none
    exact hdate
  have hnm : toNorm (mappedOf f).header r ∈ normsOf f := List.mem_map_of_mem _ hr
  have husable : usableOf f ≠ [] := by
    intro hc
    rw [hc] at hr
    simp at hr
  have hk : (toNorm (mappedOf f).header r).docNo ∈ (normsOf f).map (fun n => n.docNo) :=
    List.mem_map_of_mem _ hnm
  have hmem : toNorm (mappedOf f).header r ∈ membersOf f (toNorm (mappedOf f).header r).docNo := by
    unfold membersOf
    rw [List.mem_filter]
    exact ⟨hnm, by simp⟩
  refine ⟨h1, h2, hmem, aggregateRows (normsOf f), processFrame_of_ok hm husable, ?_⟩
  exact ⟨mkTile (toNorm (mappedOf f).header r).docNo
    (membersOf f (toNorm (mappedOf f).header r).docNo),
    mem_aggregate hk, mkTile_docNo _ _, mkTile_stockCode _ _,
    mkTile_description _ _, mkTile_rate _ _⟩

/-- Witness for C6 at the two single-failure rows of `C6wFrame`: the bad-Rate
row (the §8 `Rate:"N/A"` scenario, Date parseable) gets Rate `0` and stays in
its group's joins and sum; the bad-Date row (Rate parseable) gets an absent
Date. -/
theorem C6_bad_cell_keeps_row_witness :
    (toNorm (mappedOf C6wFrame).header [some "9", some "01/02/2024", some "P", some "S1", some "D1", some "N/A"]).rate = 0 ∧
    (toNorm (mappedOf C6wFrame).header [some "9", some "zz", some "P", some "S2", some "D2", some "4"]).date = none ∧
    toNorm (mappedOf C6wFrame).header [some "9", some "01/02/2024", some "P", some "S1", some "D1", some "N/A"] ∈
      membersOf C6wFrame (toNorm (mappedOf C6wFrame).header [some "9", some "01/02/2024", some "P", some "S1", some "D1", some "N/A"]).docNo ∧
    ∃ ts, processFrame C6wFrame = .ok ts ∧
      ∃ t ∈ ts, t.docNo = (toNorm (mappedOf C6wFrame).header [some "9", some "01/02/2024", some "P", some "S1", some "D1", some "N/A"]).docNo ∧
        t.stockCode = String.intercalate ", "
          ((membersOf C6wFrame (toNorm (mappedOf C6wFrame).header [some "9", some "01/02/2024", some "P", some "S1", some "D1", some "N/A"]).docNo).map (fun n => n.stockCode)) ∧
        t.description = String.intercalate " | "
          ((membersOf C6wFrame (toNorm (mappedOf C6wFrame).header [some "9", some "01/02/2024", some "P", some "S1", some "D1", some "N/A"]).docNo).map (fun n => n.description)) ∧
        t.rate = ((membersOf C6wFrame (toNorm (mappedOf C6wFrame).header [some "9", some "01/02/2024", some "P", some "S1", some "D1", some "N/A"]).docNo).map (fun n => n.rate)).sum := by
  have h1 := C6_bad_cell_keeps_row C6wFrame
    [some "9", some "01/02/2024", some "P", some "S1", some "D1", some "N/A"]
    (by decide) (by decide)
  have h2 := C6_bad_cell_keeps_row C6wFrame
    [some "9", some "zz", some "P", some "S2", some "D2", some "4"]
    (by decide) (by decide)
  exact ⟨h1.1 (by decide), h2.2.1 (by decide), h1.2.2.1, h1.2.2.2⟩

/-- Counterexample to claim C7 as stated: the claim drops rows whose Party is
empty after trimming, but `dropna(subset=['DocNo','Party'])` drops only null
cells.  In `C7cexFrame` the first row's Party is the non-null string `" "`
(empty after trimming), yet its StockCode `"X"` appears in the produced
tile's concatenation — and it is even the `'first'` member, so the tile's
Party is the empty string. -/
theorem C7_counterexample :
    (tilesOf (processFrame C7cexFrame)).map Tile.stockCode = ["X, Y"] ∧
    (tilesOf (processFrame C7cexFrame)).map Tile.party = [""] ∧
    pyStrip " " = "" := by
  decide

/-- Claim C7 (corrected): normalization drops entirely-empty rows, and drops a
row exactly when its DocumentId or Party cell is null (missing).  A row whose
Party is a non-null string is kept even when that string trims to empty —
"empty after trimming" does not cause a drop; that is the one amendment the
counterexample forces. -/
theorem C7_row_filtering (f : Frame) :
    (∀ r ∈ (strippedOf f).rows, r.all Option.isNone → r ∉ (droppedOf f).rows) ∧
    (∀ r, r ∈ usableOf f ↔ r ∈ (mappedOf f).rows ∧
      (getCell (mappedOf f).header r "DocNo") ≠ none ∧
      (getCell (mappedOf f).header r "Party") ≠ none) := by
  constructor
  · intro r hrm hall hmem
    unfold droppedOf at hmem
    rw [List.mem_filter] at hmem
    rw [hall] at hmem
    simp at hmem
  · intro r
    unfold usableOf
    rw [List.mem_filter]
    simp [Option.isSome_iff_ne_none]

/-- Witness for C7 at the whitespace-Party input. -/
theorem C7_row_filtering_witness :
    (∀ r ∈ (strippedOf C7cexFrame).rows, r.all Option.isNone → r ∉ (droppedOf C7cexFrame).rows) ∧
    (∀ r, r ∈ usableOf C7cexFrame ↔ r ∈ (mappedOf C7cexFrame).rows ∧
      (getCell (mappedOf C7cexFrame).header r "DocNo") ≠ none ∧
      (getCell (mappedOf C7cexFrame).header r "Party") ≠ none) :=
  C7_row_filtering C7cexFrame

/-- Counterexample to claim C3 as stated: on the missing-columns path the code
reports `list(df.columns)` *after* the synonym-binding pass, not the source
columns.  For the header `["Docno", "X"]` the binding pass adds a synthetic
`DocNo` column, so the reported "available columns" list contains `"DocNo"`,
which is not a source column. -/
theorem C3_counterexample :
    processFrame C3cexFrame =
      .missingColumns ["Date", "Party", "StockCode", "Description", "Rate"]
        ["Docno", "X", "DocNo"] ∧
    "DocNo" ∉ C3cexFrame.header := by
  decide

/-- Claim C3 (corrected): processing yields an empty tile sequence exactly in
the two structural-failure cases — some canonical field unbindable (reported
with exactly the unresolved canonical fields, and with the column list of the
table *after* the binding pass: the source columns plus any canonical columns
the pass added — the one amendment the counterexample forces), or zero usable
rows after filtering; otherwise it returns a non-empty tile list.  A
canonical field is reported missing precisely when none of its synonyms is
among the cleaned source columns. -/
theorem C3_empty_exactly_on_failure (f : Frame) (hrect : Rect (droppedOf f)) :
    (tilesOf (processFrame f) = [] ↔ (missingOf f ≠ [] ∨ usableOf f = [])) ∧
    (missingOf f ≠ [] →
      processFrame f = .missingColumns (missingOf f) (mappedOf f).header) ∧
    (missingOf f = [] → usableOf f = [] → processFrame f = .noUsableRows) ∧
    (∀ p ∈ columnMapping,
      (p.1 ∈ missingOf f ↔ ∀ s ∈ p.2, s ∉ (droppedOf f).header)) := by
  refine ⟨?_, ?_, ?_, ?_⟩
  · by_cases h1 : missingOf f = []
    · by_cases h2 : usableOf f = []
      · unfold processFrame
        simp [h1, h2, tilesOf]
      · rw [processFrame_of_ok h1 h2]
        have hagg : aggregateRows (normsOf f) ≠ [] := by
          refine aggregate_ne_nil ?_
          unfold normsOf
          simpa [List.map_eq_nil_iff] using h2
        simp [tilesOf, hagg, h1, h2]
    · unfold processFrame
      simp [h1, tilesOf]
  · intro h1
    unfold processFrame
    simp [h1]
  · intro h1 h2
    unfold processFrame
    simp [h1, h2]
  · intro p hp
    have hpreq : p.1 ∈ requiredColumns := by
      have hall : ∀ q ∈ columnMapping, q.1 ∈ requiredColumns := by decide
      exact hall p hp
    obtain ⟨ext, hex, hchar, hfields⟩ := applyMapping_spec (droppedOf f) hrect
    unfold missingOf
    rw [List.mem_filter]
    constructor
    · rintro ⟨_, hpred⟩ s hs hsmem
      have hmem : p.1 ∈ (mappedOf f).header := (hfields p hp).1.mpr ⟨s, hs, hsmem⟩
      rw [(contains_true_iff _ _).mpr hmem] at hpred
      simp at hpred
    · intro hnone
      refine ⟨hpreq, ?_⟩
      have hnot : p.1 ∉ (mappedOf f).header := by
        intro hmem
        obtain ⟨s, hs, hsmem⟩ := (hfields p hp).1.mp hmem
        exact hnone s hs hsmem
      simp [contains_true_iff, hnot]

/-- Witness for C3 at the §8 scenario input (no structural failure). -/
theorem C3_empty_exactly_on_failure_witness :
    (tilesOf (processFrame scenarioFrame) = [] ↔
      (missingOf scenarioFrame ≠ [] ∨ usableOf scenarioFrame = [])) ∧
    (missingOf scenarioFrame ≠ [] →
      processFrame scenarioFrame =
        .missingColumns (missingOf scenarioFrame) (mappedOf scenarioFrame).header) ∧
    (missingOf scenarioFrame = [] → usableOf scenarioFrame = [] →
      processFrame scenarioFrame = .noUsableRows) ∧
    (∀ p ∈ columnMapping,
      (p.1 ∈ missingOf scenarioFrame ↔ ∀ s ∈ p.2, s ∉ (droppedOf scenarioFrame).header)) :=
  C3_empty_exactly_on_failure scenarioFrame (by decide)

/-- Claim C8 (confirmed): when the first detected column name carries the
banner sentinel (`TRANSACTION CHECKLIST`) or is an `Unnamed:` placeholder,
the upload handler re-reads the source with the second line as the header
row, reports the recovery to the caller, and reconciliation of the re-read
table then binds every canonical field whenever the true second-row headers
are synonym-valid (each canonical field has some synonym among the cleaned
second-row columns). -/
theorem C8_banner_row_recovery (lines : List (List Cell)) (c0 : String) (rest : List String)
    (h0 : (readCsv 0 lines).header = c0 :: rest)
    (hp : isPlaceholder c0 = true)
    (hrect : Rect (droppedOf (readCsv 1 lines)))
    (hvalid : ∀ p ∈ columnMapping, ∃ s ∈ p.2, s ∈ (droppedOf (readCsv 1 lines)).header) :
    (uploadHandler lines).1 = true ∧
    (uploadHandler lines).2 = readCsv 1 lines ∧
    missingOf (readCsv 1 lines) = [] := by
  have hhandler : uploadHandler lines = (true, readCsv 1 lines) := by
    unfold uploadHandler
    rw [h0]
    simp [hp]
  refine ⟨by rw [hhandler], by rw [hhandler], ?_⟩
  unfold missingOf
  rw [List.filter_eq_nil_iff]
  intro c hc
  obtain ⟨p, hpmem, rfl⟩ := required_to_mapping c hc
  obtain ⟨ext, hex, hchar, hfields⟩ := applyMapping_spec (droppedOf (readCsv 1 lines)) hrect
  have hmem : p.1 ∈ (mappedOf (readCsv 1 lines)).header :=
    (hfields p hpmem).1.mpr (hvalid p hpmem)
  simp [contains_true_iff, hmem]

/-- Witness for C8 at a concrete banner-row CSV. -/
theorem C8_banner_row_recovery_witness :
    (uploadHandler C8wLines).1 = true ∧
    (uploadHandler C8wLines).2 = readCsv 1 C8wLines ∧
    missingOf (readCsv 1 C8wLines) = [] :=
  C8_banner_row_recovery C8wLines "TRANSACTION CHECKLIST"
    ["Unnamed: 1", "Unnamed: 2", "Unnamed: 3", "Unnamed: 4", "Unnamed: 5"]
    (by decide) (by decide) (by decide) (by decide)

end GdpDash
